import Mathlib

/-! Shallow embedding of the Intcode virtual machine of the
advent_of_code_2019 repository.  Namespace `Vm` models the full
eight-opcode interpreter of src/vm/mod.rs (with src/vm/mode.rs,
src/vm/op.rs and src/vm/errors.rs); namespace `VmMin` models the minimal
Add/Multiply/Halt interpreter of src/vm.rs.  Rust mutation is made
explicit: memory is a `List Int` threaded through each operation, the
caller-supplied I/O closures (`FnMut`) become state-passing functions,
and the unbounded `loop` takes a fuel parameter (`none` = the loop was
not finished within the given fuel). -/

namespace Vm

/-- Modelled from the spec: the module `src/vm/types.rs` is declared by
src/vm/mod.rs (`pub(crate) mod types`) but the file is absent.  The spec
describes memory as signed integers, the minimal variant src/vm.rs
defines `pub type Value = i64`, and the day drivers parse `i64`; so a
`Value` is a mathematical integer, with the 64-bit two's-complement
reinterpretation of each Rust `as usize` cast made explicit by
`toUsize`. -/
abbrev Value := Int

/-- Rust `usize::MAX + 1` on the 64-bit target platform. -/
def usizeSize : Nat := 2 ^ 64

/-- Rust `value as usize` for `value : i64`: two's-complement
reinterpretation, i.e. reduction modulo 2^64. -/
def toUsize (v : Value) : Nat := (v % (usizeSize : Int)).toNat

/-- Parameter modes, src/vm/mode.rs. -/
inductive Mode where
  | Position
  | Immediate
deriving DecidableEq, Repr

/-- Error taxonomy, src/vm/errors.rs. -/
inductive Error where
  | InvalidOpCode (v : Value)
  | SegFault (a : Nat)
  | ReadingNotSupported
  | WritingNotSupported
  | InvalidMode (v : Value)
  | InvalidWriteMode (m : Mode)
deriving DecidableEq, Repr

/-- Rust `TryFrom<Value> for Mode`, src/vm/mode.rs. -/
def Mode.tryFrom (value : Value) : Except Error Mode :=
  if value = 0 then .ok .Position
  else if value = 1 then .ok .Immediate
  else .error (.InvalidMode value)

/-- Opcode table, src/vm/op.rs. -/
inductive OpCode where
  | Add
  | Multiply
  | Input
  | Output
  | JumpIfTrue
  | JumpIfFalse
  | LessThan
  | Equals
  | Halt
deriving DecidableEq, Repr

/-- Rust `TryFrom<Value> for OpCode`, src/vm/op.rs. -/
def OpCode.tryFrom (value : Value) : Except Error OpCode :=
  if value = 1 then .ok .Add
  else if value = 2 then .ok .Multiply
  else if value = 3 then .ok .Input
  else if value = 4 then .ok .Output
  else if value = 5 then .ok .JumpIfTrue
  else if value = 6 then .ok .JumpIfFalse
  else if value = 7 then .ok .LessThan
  else if value = 8 then .ok .Equals
  else if value = 99 then .ok .Halt
  else .error (.InvalidOpCode value)

/-- Rust `impl Memory for Vec<Value>`: `read` (src/vm/mod.rs):
`self.get(address).cloned().ok_or(Error::SegFault(address))`. -/
def memRead (m : List Value) (address : Nat) : Except Error Value :=
  match m[address]? with
  | some v => .ok v
  | none => .error (.SegFault address)

/-- Rust `impl Memory for Vec<Value>`: `write` (src/vm/mod.rs): in-place
update through `get_mut`, failing (never growing) out of bounds. -/
def memWrite (m : List Value) (address : Nat) (value : Value) :
    Except Error (List Value) :=
  if address < m.length then .ok (m.set address value)
  else .error (.SegFault address)

/-- The interpreter state: program memory and instruction pointer. -/
structure Computer where
  memory : List Value
  ip : Nat
deriving DecidableEq, Repr

/-- Rust `Computer::new`. -/
def Computer.new (memory : List Value) : Computer := ⟨memory, 0⟩

/-- Execution state reported by a step, src/vm/mod.rs `enum State`. -/
inductive State where
  | Running
  | Halted
deriving DecidableEq, Repr

/-- Rust `Computer::read`: resolve the operand at `address` through its
parameter mode (position dereferences, immediate is direct). -/
def Computer.read (c : Computer) (address : Nat) (mode : Mode) :
    Except Error Value :=
  match mode with
  | .Position => do
      let value ← memRead c.memory address
      memRead c.memory (toUsize value)
  | .Immediate => memRead c.memory address

/-- Rust `Computer::write`: position mode stores through the pointer held
at `address`; immediate mode is an invalid write mode. -/
def Computer.write (c : Computer) (address : Nat) (mode : Mode)
    (value : Value) : Except Error (List Value) :=
  match mode with
  | .Position => do
      let target ← memRead c.memory address
      memWrite c.memory (toUsize target) value
  | .Immediate => .error (.InvalidWriteMode .Immediate)

/-- One application of the `pop_mode` closure of `Computer::step`: the
mode parsed from the lowest remaining decimal digit, paired with the
remaining digits (Rust truncated `%` and `/` on a signed value). -/
def popMode (inst : Value) : Except Error Mode × Value :=
  (Mode.tryFrom (inst.tmod 10), inst.tdiv 10)

/-- Rust `Computer::jump_if`: reads the condition operand at `a` and the
target operand at `a + 1` (modes popped from `inst` in that order) and
returns the cast jump target exactly when `zero ^ nonzero`. -/
def Computer.jumpIf (c : Computer) (nonzero : Bool) (a : Nat)
    (inst : Value) : Except Error (Option Nat) := do
  let m1 ← (popMode inst).1
  let condv ← c.read a m1
  let zero : Bool := condv == 0
  let m2 ← (popMode (popMode inst).2).1
  let target ← c.read (a + 1) m2
  if xor zero nonzero then return some (toUsize target) else return none

/-- Rust `Computer::write_if`: compares the operands at `a` and `a + 1`
and stores 1 (comparison yields `order`) or 0 at the third operand. -/
def Computer.writeIf (c : Computer) (order : Ordering) (a : Nat)
    (inst : Value) : Except Error (List Value) := do
  let m1 ← (popMode inst).1
  let x ← c.read a m1
  let inst2 := (popMode inst).2
  let m2 ← (popMode inst2).1
  let y ← c.read (a + 1) m2
  let m3 ← (popMode (popMode inst2).2).1
  let value : Value := if compare x y = order then 1 else 0
  c.write (a + 2) m3 value

/-- Rust `Computer::step`: fetch the word at `ip`, decode the opcode from
its low two digits, execute one instruction.  The result triple holds the
step outcome, the machine at return time (the advanced cursor is
committed only on success; every error branch returns the entry state),
and the channel state (the channels may have been invoked before a
failure). -/
def Computer.step {σ : Type} (c : Computer)
    (readCh : σ → Except Error Value × σ)
    (writeCh : Value → σ → Except Error Unit × σ) (st : σ) :
    Except Error State × Computer × σ :=
  match memRead c.memory c.ip with
  | .error e => (.error e, c, st)
  | .ok w =>
    match OpCode.tryFrom (w.tmod 100) with
    | .error e => (.error e, c, st)
    | .ok op =>
      let inst := w.tdiv 100
      match op with
      | .Add =>
        match (do
            let m1 ← (popMode inst).1
            let x ← c.read (c.ip + 1) m1
            let inst2 := (popMode inst).2
            let m2 ← (popMode inst2).1
            let y ← c.read (c.ip + 2) m2
            let m3 ← (popMode (popMode inst2).2).1
            c.write (c.ip + 3) m3 (x + y) : Except Error (List Value)) with
        | .error e => (.error e, c, st)
        | .ok mem => (.ok .Running, ⟨mem, c.ip + 4⟩, st)
      | .Multiply =>
        match (do
            let m1 ← (popMode inst).1
            let x ← c.read (c.ip + 1) m1
            let inst2 := (popMode inst).2
            let m2 ← (popMode inst2).1
            let y ← c.read (c.ip + 2) m2
            let m3 ← (popMode (popMode inst2).2).1
            c.write (c.ip + 3) m3 (x * y) : Except Error (List Value)) with
        | .error e => (.error e, c, st)
        | .ok mem => (.ok .Running, ⟨mem, c.ip + 4⟩, st)
      | .Input =>
        match (popMode inst).1 with
        | .error e => (.error e, c, st)
        | .ok m1 =>
          match readCh st with
          | (.error e, st2) => (.error e, c, st2)
          | (.ok v, st2) =>
            match c.write (c.ip + 1) m1 v with
            | .error e => (.error e, c, st2)
            | .ok mem => (.ok .Running, ⟨mem, c.ip + 2⟩, st2)
      | .Output =>
        match (do
            let m1 ← (popMode inst).1
            c.read (c.ip + 1) m1 : Except Error Value) with
        | .error e => (.error e, c, st)
        | .ok v =>
          match writeCh v st with
          | (.error e, st2) => (.error e, c, st2)
          | (.ok _, st2) => (.ok .Running, ⟨c.memory, c.ip + 2⟩, st2)
      | .JumpIfTrue =>
        match c.jumpIf true (c.ip + 1) inst with
        | .error e => (.error e, c, st)
        | .ok (some newIp) => (.ok .Running, ⟨c.memory, newIp⟩, st)
        | .ok none => (.ok .Running, ⟨c.memory, c.ip + 3⟩, st)
      | .JumpIfFalse =>
        match c.jumpIf false (c.ip + 1) inst with
        | .error e => (.error e, c, st)
        | .ok (some newIp) => (.ok .Running, ⟨c.memory, newIp⟩, st)
        | .ok none => (.ok .Running, ⟨c.memory, c.ip + 3⟩, st)
      | .LessThan =>
        match c.writeIf .lt (c.ip + 1) inst with
        | .error e => (.error e, c, st)
        | .ok mem => (.ok .Running, ⟨mem, c.ip + 4⟩, st)
      | .Equals =>
        match c.writeIf .eq (c.ip + 1) inst with
        | .error e => (.error e, c, st)
        | .ok mem => (.ok .Running, ⟨mem, c.ip + 4⟩, st)
      | .Halt => (.ok .Halted, c, st)

/-- Rust `Computer::run_all`: repeat `step` until `Halted`, propagating
the first failure; `fuel` bounds the number of iterations. -/
def runAll {σ : Type} (readCh : σ → Except Error Value × σ)
    (writeCh : Value → σ → Except Error Unit × σ) :
    Nat → Computer → σ → Option (Except Error (Computer × σ))
  | 0, _, _ => none
  | fuel + 1, c, st =>
    match c.step readCh writeCh st with
    | (.error e, _, _) => some (.error e)
    | (.ok .Halted, c2, st2) => some (.ok (c2, st2))
    | (.ok .Running, c2, st2) => runAll readCh writeCh fuel c2 st2

/-- Rust free function `reading_not_supported`. -/
def readingNotSupported : Unit → Except Error Value × Unit :=
  fun st => (.error .ReadingNotSupported, st)

/-- Rust free function `writing_not_supported`. -/
def writingNotSupported : Value → Unit → Except Error Unit × Unit :=
  fun _ st => (.error .WritingNotSupported, st)

/-- Rust `Computer::execute`: run with both channels stubbed to fail on
use, then return the word at address 0. -/
def Computer.execute (c : Computer) (fuel : Nat) :
    Option (Except Error Value) :=
  match runAll readingNotSupported writingNotSupported fuel c () with
  | none => none
  | some (.error e) => some (.error e)
  | some (.ok (c2, _)) => some (memRead c2.memory 0)

/-- Rust `Computer::execute` together with the final memory image (the
Rust computer retains its memory after `execute`); used to compare the
two interpreter variants. -/
def Computer.executeWithMem (c : Computer) (fuel : Nat) :
    Option (Except Error (Value × List Value)) :=
  match runAll readingNotSupported writingNotSupported fuel c () with
  | none => none
  | some (.error e) => some (.error e)
  | some (.ok (c2, _)) =>
    match memRead c2.memory 0 with
    | .error e => some (.error e)
    | .ok v => some (.ok (v, c2.memory))

/-- Rust `Computer::run`: run to completion with caller-supplied
channels. -/
def Computer.run {σ : Type} (c : Computer)
    (readCh : σ → Except Error Value × σ)
    (writeCh : Value → σ → Except Error Unit × σ) (fuel : Nat) (st : σ) :
    Option (Except Error (Computer × σ)) :=
  runAll readCh writeCh fuel c st

/-- Day-05-style read channel: values are taken from a finite input list,
failing with `ReadingNotSupported` once exhausted (as the driver closure
`input.take().ok_or(Error::ReadingNotSupported)` does). -/
def listRead : List Value × List Value →
    Except Error Value × (List Value × List Value) :=
  fun st =>
    match st.1 with
    | [] => (.error .ReadingNotSupported, st)
    | v :: rest => (.ok v, (rest, st.2))

/-- Day-05-style write channel: appends the emitted value to the output
list (as the driver closure `out.push(value)` does). -/
def listWrite : Value → List Value × List Value →
    Except Error Unit × (List Value × List Value) :=
  fun v st => (.ok (), (st.1, st.2 ++ [v]))

/-- The mode-digit state after `k` applications of `pop_mode`; used to
state the decoding property. -/
def popModeIter (inst : Value) : Nat → Value
  | 0 => inst
  | k + 1 => (popMode (popModeIter inst k)).2

end Vm

namespace VmMin

/-- Error taxonomy of the minimal variant, src/vm.rs. -/
inductive Error where
  | InvalidOpCode (v : Vm.Value)
  | SegFault (a : Nat)
deriving DecidableEq, Repr

/-- Injection of the minimal variant's errors into the full taxonomy
(same constructors, same payloads). -/
def Error.toVm : Error → Vm.Error
  | .InvalidOpCode v => .InvalidOpCode v
  | .SegFault a => .SegFault a

/-- Opcodes of the minimal variant, src/vm.rs. -/
inductive OpCode where
  | Add
  | Multiply
  | Halt
deriving DecidableEq, Repr

/-- Rust `TryFrom<Value> for OpCode` of the minimal variant. -/
def OpCode.tryFrom (value : Vm.Value) : Except Error OpCode :=
  if value = 1 then .ok .Add
  else if value = 2 then .ok .Multiply
  else if value = 99 then .ok .Halt
  else .error (.InvalidOpCode value)

/-- Rust `impl Memory for Vec<Value>`: `read` (src/vm.rs). -/
def memRead (m : List Vm.Value) (address : Nat) : Except Error Vm.Value :=
  match m[address]? with
  | some v => .ok v
  | none => .error (.SegFault address)

/-- Rust `impl Memory for Vec<Value>`: `write` (src/vm.rs). -/
def memWrite (m : List Vm.Value) (address : Nat) (value : Vm.Value) :
    Except Error (List Vm.Value) :=
  if address < m.length then .ok (m.set address value)
  else .error (.SegFault address)

/-- Rust `Computer::read` of the minimal variant: always a position-style
dereference `memory[memory[address]]`. -/
def read (m : List Vm.Value) (address : Nat) : Except Error Vm.Value := do
  let p ← memRead m address
  memRead m (Vm.toUsize p)

/-- The `Computer::execute` loop of the minimal variant (src/vm.rs), from
instruction pointer `ip`, with the final memory image attached to a
successful result; `fuel` bounds the number of loop iterations.
Argument evaluation order of the Rust call is kept: the destination word
at `ip + 3` is fetched before the two operands are resolved. -/
def executeAux :
    Nat → List Vm.Value → Nat →
      Option (Except Error (Vm.Value × List Vm.Value))
  | 0, _, _ => none
  | fuel + 1, m, ip =>
    match memRead m ip with
    | .error e => some (.error e)
    | .ok w =>
      match OpCode.tryFrom w with
      | .error e => some (.error e)
      | .ok .Halt =>
        match memRead m 0 with
        | .error e => some (.error e)
        | .ok v => some (.ok (v, m))
      | .ok .Add =>
        match (do
            let dest ← memRead m (ip + 3)
            let x ← read m (ip + 1)
            let y ← read m (ip + 2)
            memWrite m (Vm.toUsize dest) (x + y) :
              Except Error (List Vm.Value)) with
        | .error e => some (.error e)
        | .ok m2 => executeAux fuel m2 (ip + 4)
      | .ok .Multiply =>
        match (do
            let dest ← memRead m (ip + 3)
            let x ← read m (ip + 1)
            let y ← read m (ip + 2)
            memWrite m (Vm.toUsize dest) (x * y) :
              Except Error (List Vm.Value)) with
        | .error e => some (.error e)
        | .ok m2 => executeAux fuel m2 (ip + 4)

/-- Rust `Computer::execute` of the minimal variant, from a fresh
computer (`ip = 0`). -/
def execute (m : List Vm.Value) (fuel : Nat) :
    Option (Except Error (Vm.Value × List Vm.Value)) :=
  executeAux fuel m 0

end VmMin

namespace Vm

/-- Reading an address in bounds yields the stored value. -/
theorem memRead_of_lt {m : List Value} {a : Nat} (h : a < m.length) :
    memRead m a = .ok m[a] := by
  simp [memRead, List.getElem?_eq_getElem h]

/-- Reading an address out of bounds segfaults. -/
theorem memRead_of_ge {m : List Value} {a : Nat} (h : m.length ≤ a) :
    memRead m a = .error (.SegFault a) := by
  simp [memRead, List.getElem?_eq_none h]

/-- A step whose instruction fetch fails propagates the fault and leaves
the machine unchanged. -/
theorem step_fetch_error {σ : Type} (c : Computer)
    (rc : σ → Except Error Value × σ) (wc : Value → σ → Except Error Unit × σ)
    (st : σ) {e : Error} (hm : memRead c.memory c.ip = .error e) :
    c.step rc wc st = (.error e, c, st) := by
  simp only [Computer.step, hm]

/-- A step whose fetched word has an invalid opcode fails at once. -/
theorem step_invalid_op {σ : Type} (c : Computer)
    (rc : σ → Except Error Value × σ) (wc : Value → σ → Except Error Unit × σ)
    (st : σ) {w : Value} {e : Error}
    (hm : memRead c.memory c.ip = .ok w)
    (hop : OpCode.tryFrom (w.tmod 100) = .error e) :
    c.step rc wc st = (.error e, c, st) := by
  simp only [Computer.step, hm, hop]

/-- Characterization of a step on a JumpIfTrue instruction whose operands
resolve. -/
theorem step_jump_true {σ : Type} (c : Computer)
    (rc : σ → Except Error Value × σ) (wc : Value → σ → Except Error Unit × σ)
    (st : σ) {w condv tv : Value} {m1 m2 : Mode}
    (hm : memRead c.memory c.ip = .ok w)
    (hop : w.tmod 100 = 5)
    (h1 : (popMode (w.tdiv 100)).1 = .ok m1)
    (h2 : (popMode (popMode (w.tdiv 100)).2).1 = .ok m2)
    (hc : c.read (c.ip + 1) m1 = .ok condv)
    (ht : c.read (c.ip + 2) m2 = .ok tv) :
    c.step rc wc st =
      if condv = 0 then (.ok .Running, ⟨c.memory, c.ip + 3⟩, st)
      else (.ok .Running, ⟨c.memory, toUsize tv⟩, st) := by
  have hop2 : OpCode.tryFrom (w.tmod 100) = .ok .JumpIfTrue := by rw [hop]; rfl
  have hj : c.jumpIf true (c.ip + 1) (w.tdiv 100) =
      .ok (if condv = 0 then none else some (toUsize tv)) := by
    unfold Computer.jumpIf
    simp only [h1, hc, h2, ht, Bind.bind, Except.bind]
    by_cases h0 : condv = 0 <;> simp [h0, pure, Except.pure]
  simp only [Computer.step, hm, hop2, hj]
  by_cases h0 : condv = 0 <;> simp [h0]

/-- Characterization of a step on a JumpIfFalse instruction whose
operands resolve. -/
theorem step_jump_false {σ : Type} (c : Computer)
    (rc : σ → Except Error Value × σ) (wc : Value → σ → Except Error Unit × σ)
    (st : σ) {w condv tv : Value} {m1 m2 : Mode}
    (hm : memRead c.memory c.ip = .ok w)
    (hop : w.tmod 100 = 6)
    (h1 : (popMode (w.tdiv 100)).1 = .ok m1)
    (h2 : (popMode (popMode (w.tdiv 100)).2).1 = .ok m2)
    (hc : c.read (c.ip + 1) m1 = .ok condv)
    (ht : c.read (c.ip + 2) m2 = .ok tv) :
    c.step rc wc st =
      if condv = 0 then (.ok .Running, ⟨c.memory, toUsize tv⟩, st)
      else (.ok .Running, ⟨c.memory, c.ip + 3⟩, st) := by
  have hop2 : OpCode.tryFrom (w.tmod 100) = .ok .JumpIfFalse := by rw [hop]; rfl
  have hj : c.jumpIf false (c.ip + 1) (w.tdiv 100) =
      .ok (if condv = 0 then some (toUsize tv) else none) := by
    unfold Computer.jumpIf
    simp only [h1, hc, h2, ht, Bind.bind, Except.bind]
    by_cases h0 : condv = 0 <;> simp [h0, pure, Except.pure]
  simp only [Computer.step, hm, hop2, hj]
  by_cases h0 : condv = 0 <;> simp [h0]

/-- Characterization of a step on an Input instruction: the read channel
is invoked exactly once and its value is stored through the popped
mode. -/
theorem step_input {σ : Type} (c : Computer)
    (rc : σ → Except Error Value × σ) (wc : Value → σ → Except Error Unit × σ)
    (st : σ) {w : Value} {m1 : Mode}
    (hm : memRead c.memory c.ip = .ok w)
    (hop : w.tmod 100 = 3)
    (h1 : (popMode (w.tdiv 100)).1 = .ok m1) :
    c.step rc wc st =
      match rc st with
      | (.error e, st2) => (.error e, c, st2)
      | (.ok v, st2) =>
        match c.write (c.ip + 1) m1 v with
        | .error e => (.error e, c, st2)
        | .ok mem => (.ok .Running, ⟨mem, c.ip + 2⟩, st2) := by
  have hop2 : OpCode.tryFrom (w.tmod 100) = .ok .Input := by rw [hop]; rfl
  simp only [Computer.step, hm, hop2, h1]

/-- Characterization of a step on an Output instruction whose operand
resolves: the write channel is invoked exactly once with the resolved
value. -/
theorem step_output {σ : Type} (c : Computer)
    (rc : σ → Except Error Value × σ) (wc : Value → σ → Except Error Unit × σ)
    (st : σ) {w v : Value} {m1 : Mode}
    (hm : memRead c.memory c.ip = .ok w)
    (hop : w.tmod 100 = 4)
    (h1 : (popMode (w.tdiv 100)).1 = .ok m1)
    (hv : c.read (c.ip + 1) m1 = .ok v) :
    c.step rc wc st =
      match wc v st with
      | (.error e, st2) => (.error e, c, st2)
      | (.ok _, st2) => (.ok .Running, ⟨c.memory, c.ip + 2⟩, st2) := by
  have hop2 : OpCode.tryFrom (w.tmod 100) = .ok .Output := by rw [hop]; rfl
  simp only [Computer.step, hm, hop2, h1, hv, Bind.bind, Except.bind]

/-- Unfolding of the run loop when the step fails. -/
theorem runAll_error {σ : Type} (rc : σ → Except Error Value × σ)
    (wc : Value → σ → Except Error Unit × σ) (fuel : Nat) (c : Computer)
    (st : σ) {e : Error}
    (h : (c.step rc wc st).1 = .error e) :
    runAll rc wc (fuel + 1) c st = some (.error e) := by
  unfold runAll
  rcases hs : c.step rc wc st with ⟨r, c2, st2⟩
  rw [hs] at h
  simp at h
  rw [h]

/-- Unfolding of the run loop when the step halts. -/
theorem runAll_halted {σ : Type} (rc : σ → Except Error Value × σ)
    (wc : Value → σ → Except Error Unit × σ) (fuel : Nat) (c : Computer)
    (st : σ) {c2 : Computer} {st2 : σ}
    (h : c.step rc wc st = (.ok .Halted, c2, st2)) :
    runAll rc wc (fuel + 1) c st = some (.ok (c2, st2)) := by
  unfold runAll
  rw [h]

/-- Unfolding of the run loop when the step keeps running. -/
theorem runAll_running {σ : Type} (rc : σ → Except Error Value × σ)
    (wc : Value → σ → Except Error Unit × σ) (fuel : Nat) (c : Computer)
    (st : σ) {c2 : Computer} {st2 : σ}
    (h : c.step rc wc st = (.ok .Running, c2, st2)) :
    runAll rc wc (fuel + 1) c st = runAll rc wc fuel c2 st2 := by
  conv_lhs => rw [runAll]
  rw [h]

/-- Iterated `pop_mode` on a nonnegative word divides by powers of 10. -/
theorem popModeIter_natCast (n : Nat) (k : Nat) :
    popModeIter (n : Value) k = ((n / 10 ^ k : Nat) : Value) := by
  induction k with
  | zero => simp [popModeIter]
  | succ k ih =>
    show (popMode (popModeIter (n : Value) k)).2 = _
    rw [ih]
    show ((n / 10 ^ k : Nat) : Int).tdiv 10 = _
    rw [show ((n / 10 ^ k : Nat) : Int).tdiv 10 =
          ((n / 10 ^ k / 10 : Nat) : Int) from rfl]
    rw [Nat.div_div_eq_div_mul, pow_succ]

/-- The mode popped at position `k` of a nonnegative word is decided by
the k-th least-significant decimal digit. -/
theorem popMode_digit (n : Nat) (k : Nat) :
    (popMode (popModeIter (n : Value) k)).1 =
      Mode.tryFrom ((n / 10 ^ k % 10 : Nat) : Value) := by
  rw [show (popMode (popModeIter (n : Value) k)).1 =
        Mode.tryFrom ((popModeIter (n : Value) k).tmod 10) from rfl]
  rw [popModeIter_natCast]
  rfl

/-- Reduction of a step on a bare Add word (all modes position). -/
theorem step_add {σ : Type} (c : Computer)
    (rc : σ → Except Error Value × σ) (wc : Value → σ → Except Error Unit × σ)
    (st : σ) (hm : memRead c.memory c.ip = .ok 1) :
    c.step rc wc st =
      match (do
          let x ← c.read (c.ip + 1) .Position
          let y ← c.read (c.ip + 2) .Position
          c.write (c.ip + 3) .Position (x + y) :
            Except Error (List Value)) with
      | .error e => (.error e, c, st)
      | .ok mem => (.ok .Running, ⟨mem, c.ip + 4⟩, st) := by
  simp only [Computer.step, hm]
  rfl

/-- Reduction of a step on a bare Multiply word (all modes position). -/
theorem step_mul {σ : Type} (c : Computer)
    (rc : σ → Except Error Value × σ) (wc : Value → σ → Except Error Unit × σ)
    (st : σ) (hm : memRead c.memory c.ip = .ok 2) :
    c.step rc wc st =
      match (do
          let x ← c.read (c.ip + 1) .Position
          let y ← c.read (c.ip + 2) .Position
          c.write (c.ip + 3) .Position (x * y) :
            Except Error (List Value)) with
      | .error e => (.error e, c, st)
      | .ok mem => (.ok .Running, ⟨mem, c.ip + 4⟩, st) := by
  simp only [Computer.step, hm]
  rfl

/-- Reduction of a step on a Halt word. -/
theorem step_halt {σ : Type} (c : Computer)
    (rc : σ → Except Error Value × σ) (wc : Value → σ → Except Error Unit × σ)
    (st : σ) (hm : memRead c.memory c.ip = .ok 99) :
    c.step rc wc st = (.ok .Halted, c, st) := by
  simp only [Computer.step, hm]
  rfl

/-- The execute loop surfaces a failing first step. -/
theorem executeWithMem_step_error (c : Computer) (fuel : Nat) {e : Error}
    {c2 : Computer} {st2 : Unit}
    (h : c.step readingNotSupported writingNotSupported () =
      (.error e, c2, st2)) :
    c.executeWithMem (fuel + 1) = some (.error e) := by
  unfold Computer.executeWithMem
  rw [runAll_error readingNotSupported writingNotSupported fuel c ()
    (by rw [h])]

/-- The execute loop stops at a halting first step and reads address 0. -/
theorem executeWithMem_step_halted (c : Computer) (fuel : Nat)
    {c2 : Computer}
    (h : c.step readingNotSupported writingNotSupported () =
      (.ok .Halted, c2, ())) :
    c.executeWithMem (fuel + 1) =
      match memRead c2.memory 0 with
      | .error e => some (.error e)
      | .ok v => some (.ok (v, c2.memory)) := by
  unfold Computer.executeWithMem
  rw [runAll_halted readingNotSupported writingNotSupported fuel c () h]

/-- The execute loop continues after a running first step. -/
theorem executeWithMem_step_running (c : Computer) (fuel : Nat)
    {c2 : Computer}
    (h : c.step readingNotSupported writingNotSupported () =
      (.ok .Running, c2, ())) :
    c.executeWithMem (fuel + 1) = c2.executeWithMem fuel := by
  unfold Computer.executeWithMem
  rw [runAll_running readingNotSupported writingNotSupported fuel c () h]

end Vm

/-- C1: for every instruction word `W` fetched by a step, the executed
opcode is selected by `W mod 100` (a value outside the table fails the
step with exactly the error of the opcode parse, InvalidOpCode of
`W mod 100`), and the k-th popped parameter mode is the k-th
least-significant decimal digit of `W / 100`, missing digits defaulting
to 0 (position); digit 0 is position, 1 is immediate, and any other
consumed digit yields InvalidMode carrying that digit. -/
theorem vm_decoding (W : Vm.Value) (hW : 0 ≤ W) (k : Nat) :
    (∀ (σ : Type) (c : Vm.Computer) (rc : σ → Except Vm.Error Vm.Value × σ)
      (wc : Vm.Value → σ → Except Vm.Error Unit × σ) (st : σ) (e : Vm.Error),
      Vm.memRead c.memory c.ip = .ok W →
      Vm.OpCode.tryFrom (W.tmod 100) = .error e →
      c.step rc wc st = (.error e, c, st))
    ∧ W.tmod 100 = W % 100
    ∧ W.tdiv 100 = W / 100
    ∧ (Vm.popMode (Vm.popModeIter (W.tdiv 100) k)).1 =
        Vm.Mode.tryFrom (W / 100 / 10 ^ k % 10)
    ∧ (W / 100 < 10 ^ k →
        (Vm.popMode (Vm.popModeIter (W.tdiv 100) k)).1 = .ok .Position)
    ∧ Vm.Mode.tryFrom 0 = .ok .Position
    ∧ Vm.Mode.tryFrom 1 = .ok .Immediate
    ∧ (∀ d : Vm.Value, d ≠ 0 → d ≠ 1 →
        Vm.Mode.tryFrom d = .error (.InvalidMode d)) := by
  obtain ⟨n, rfl⟩ : ∃ n : Nat, W = (n : Int) :=
    ⟨W.toNat, (Int.toNat_of_nonneg hW).symm⟩
  have hmod : ((n : Int)).tmod 100 = (n : Int) % 100 := by
    rw [show ((n : Int)).tmod 100 = ((n % 100 : Nat) : Int) from rfl]
    push_cast
    rfl
  have hdiv : ((n : Int)).tdiv 100 = (n : Int) / 100 := by
    rw [show ((n : Int)).tdiv 100 = ((n / 100 : Nat) : Int) from rfl]
    push_cast
    rfl
  have hdigit : ((n : Int)) / 100 / 10 ^ k % 10 =
      ((n / 100 / 10 ^ k % 10 : Nat) : Int) := by
    push_cast
    rfl
  refine ⟨?_, hmod, hdiv, ?_, ?_, rfl, rfl, ?_⟩
  · intro σ c rc wc st e hm hop
    exact Vm.step_invalid_op c rc wc st hm hop
  · rw [hdigit]
    rw [show ((n : Int)).tdiv 100 = ((n / 100 : Nat) : Int) from rfl]
    rw [Vm.popMode_digit]
  · intro hlt
    rw [show ((n : Int)).tdiv 100 = ((n / 100 : Nat) : Int) from rfl]
    rw [Vm.popMode_digit]
    have h0 : n / 100 / 10 ^ k = 0 := by
      apply Nat.div_eq_of_lt
      have : ((n / 100 : Nat) : Int) < ((10 ^ k : Nat) : Int) := by
        rw [show ((n / 100 : Nat) : Int) = (n : Int) / 100 from by
          push_cast; rfl]
        push_cast
        exact_mod_cast hlt
      exact_mod_cast this
    rw [h0]
    rfl
  · intro d h0 h1
    simp [Vm.Mode.tryFrom, h0, h1]

theorem vm_decoding_witness :
    (Vm.Computer.new [1000]).step Vm.readingNotSupported
        Vm.writingNotSupported () =
      (.error (.InvalidOpCode 0), Vm.Computer.new [1000], ())
    ∧ (1000 : Int).tmod 100 = 1000 % 100
    ∧ (Vm.popMode (Vm.popModeIter ((1000 : Int).tdiv 100) 1)).1 =
        Vm.Mode.tryFrom ((1000 : Int) / 100 / 10 ^ 1 % 10)
    ∧ Vm.Mode.tryFrom 0 = .ok .Position := by
  have h := vm_decoding 1000 (by decide) 1
  exact ⟨h.1 Unit (Vm.Computer.new [1000]) Vm.readingNotSupported
      Vm.writingNotSupported () (.InvalidOpCode 0) rfl rfl,
    h.2.1, h.2.2.2.1, h.2.2.2.2.2.1⟩

/-- C2: memory reads and writes at an address at or beyond the length
fail with SegFault carrying that address (a write never grows the list),
reads and writes strictly inside the bounds succeed, and SegFault is
raised only at an out-of-bounds address. -/
theorem vm_memory_bounds (m : List Vm.Value) (a : Nat) (v : Vm.Value) :
    (m.length ≤ a →
      Vm.memRead m a = .error (.SegFault a) ∧
      Vm.memWrite m a v = .error (.SegFault a))
    ∧ (a < m.length →
      (∃ x, Vm.memRead m a = .ok x) ∧
      Vm.memWrite m a v = .ok (m.set a v))
    ∧ (∀ m2, Vm.memWrite m a v = .ok m2 → m2.length = m.length)
    ∧ (∀ b, Vm.memRead m a = .error (.SegFault b) → b = a ∧ m.length ≤ a)
    ∧ (∀ b, Vm.memWrite m a v = .error (.SegFault b) → b = a ∧ m.length ≤ a) := by
  refine ⟨fun h => ⟨Vm.memRead_of_ge h, ?_⟩,
          fun h => ⟨⟨m[a], Vm.memRead_of_lt h⟩, ?_⟩, ?_, ?_, ?_⟩
  · simp [Vm.memWrite, Nat.not_lt.mpr h]
  · simp [Vm.memWrite, h]
  · intro m2 hw
    unfold Vm.memWrite at hw
    split at hw
    · cases hw; simp
    · cases hw
  · intro b hr
    unfold Vm.memRead at hr
    rcases hg : m[a]? with _ | x
    · rw [hg] at hr
      cases hr
      exact ⟨rfl, by simpa [List.getElem?_eq_none_iff] using hg⟩
    · rw [hg] at hr; cases hr
  · intro b hw
    unfold Vm.memWrite at hw
    split at hw
    · cases hw
    · cases hw
      exact ⟨rfl, by omega⟩

theorem vm_memory_bounds_witness :
    (Vm.memRead [5] 1 = .error (.SegFault 1) ∧
     Vm.memWrite [5] 1 7 = .error (.SegFault 1))
    ∧ ((∃ x, Vm.memRead [5] 0 = .ok x) ∧ Vm.memWrite [5] 0 7 = .ok [7]) :=
  ⟨(vm_memory_bounds [5] 1 7).1 (by decide),
   (vm_memory_bounds [5] 0 7).2.1 (by decide)⟩

/-- C3: a step on JumpIfTrue with a non-zero resolved condition sets the
instruction pointer to the resolved target (cast to an address) and skips
the standard three-word advance; JumpIfFalse mirrors this for a zero
condition; when the condition does not match, the new pointer is the old
one plus 3. -/
theorem vm_jump_semantics (σ : Type) (c : Vm.Computer)
    (rc : σ → Except Vm.Error Vm.Value × σ)
    (wc : Vm.Value → σ → Except Vm.Error Unit × σ) (st : σ)
    (w condv tv : Vm.Value) (m1 m2 : Vm.Mode)
    (hm : Vm.memRead c.memory c.ip = .ok w)
    (h1 : (Vm.popMode (w.tdiv 100)).1 = .ok m1)
    (h2 : (Vm.popMode (Vm.popMode (w.tdiv 100)).2).1 = .ok m2)
    (hc : c.read (c.ip + 1) m1 = .ok condv)
    (ht : c.read (c.ip + 2) m2 = .ok tv) :
    (w.tmod 100 = 5 →
      c.step rc wc st =
        if condv = 0 then (.ok .Running, ⟨c.memory, c.ip + 3⟩, st)
        else (.ok .Running, ⟨c.memory, Vm.toUsize tv⟩, st))
    ∧ (w.tmod 100 = 6 →
      c.step rc wc st =
        if condv = 0 then (.ok .Running, ⟨c.memory, Vm.toUsize tv⟩, st)
        else (.ok .Running, ⟨c.memory, c.ip + 3⟩, st)) :=
  ⟨fun hop => Vm.step_jump_true c rc wc st hm hop h1 h2 hc ht,
   fun hop => Vm.step_jump_false c rc wc st hm hop h1 h2 hc ht⟩

theorem vm_jump_semantics_witness :
    ((Vm.Computer.new [1105, 1, 7]).step Vm.readingNotSupported
        Vm.writingNotSupported () =
      (.ok .Running, ⟨[1105, 1, 7], 7⟩, ()))
    ∧ ((Vm.Computer.new [1105, 0, 7]).step Vm.readingNotSupported
        Vm.writingNotSupported () =
      (.ok .Running, ⟨[1105, 0, 7], 3⟩, ()))
    ∧ ((Vm.Computer.new [1106, 0, 9]).step Vm.readingNotSupported
        Vm.writingNotSupported () =
      (.ok .Running, ⟨[1106, 0, 9], 9⟩, ())) := by
  have ha := vm_jump_semantics Unit (Vm.Computer.new [1105, 1, 7])
    Vm.readingNotSupported Vm.writingNotSupported () 1105 1 7
    .Immediate .Immediate rfl rfl rfl rfl rfl
  have hb := vm_jump_semantics Unit (Vm.Computer.new [1105, 0, 7])
    Vm.readingNotSupported Vm.writingNotSupported () 1105 0 7
    .Immediate .Immediate rfl rfl rfl rfl rfl
  have hd := vm_jump_semantics Unit (Vm.Computer.new [1106, 0, 9])
    Vm.readingNotSupported Vm.writingNotSupported () 1106 0 9
    .Immediate .Immediate rfl rfl rfl rfl rfl
  refine ⟨?_, ?_, ?_⟩
  · rw [ha.1 rfl]; rfl
  · rw [hb.1 rfl]; rfl
  · rw [hd.2 rfl]; rfl

/-- C4: `execute` runs with both channels stubbed to always fail: a step
reaching an Input opcode fails with ReadingNotSupported, a step reaching
an Output opcode (with a resolvable operand) fails with
WritingNotSupported, such step failures propagate through the run loop to
`execute`, and a successful run makes `execute` return the word at
address 0. -/
theorem vm_execute_stubbed (fuel : Nat) (c c2 : Vm.Computer) (w : Vm.Value)
    (e : Vm.Error) :
    ((∃ m1, Vm.memRead c.memory c.ip = .ok w ∧ w.tmod 100 = 3 ∧
        (Vm.popMode (w.tdiv 100)).1 = .ok m1) →
      c.step Vm.readingNotSupported Vm.writingNotSupported () =
        (.error .ReadingNotSupported, c, ()))
    ∧ ((∃ m1 v, Vm.memRead c.memory c.ip = .ok w ∧ w.tmod 100 = 4 ∧
        (Vm.popMode (w.tdiv 100)).1 = .ok m1 ∧
        c.read (c.ip + 1) m1 = .ok v) →
      c.step Vm.readingNotSupported Vm.writingNotSupported () =
        (.error .WritingNotSupported, c, ()))
    ∧ ((c.step Vm.readingNotSupported Vm.writingNotSupported ()).1 =
        .error e →
      Vm.runAll Vm.readingNotSupported Vm.writingNotSupported (fuel + 1) c () =
        some (.error e))
    ∧ (Vm.runAll Vm.readingNotSupported Vm.writingNotSupported fuel c () =
        some (.error e) → c.execute fuel = some (.error e))
    ∧ (Vm.runAll Vm.readingNotSupported Vm.writingNotSupported fuel c () =
        some (.ok (c2, ())) →
      c.execute fuel = some (Vm.memRead c2.memory 0)) := by
  refine ⟨?_, ?_, ?_, ?_, ?_⟩
  · rintro ⟨m1, hm, hop, h1⟩
    rw [Vm.step_input c Vm.readingNotSupported Vm.writingNotSupported ()
      hm hop h1]
    rfl
  · rintro ⟨m1, v, hm, hop, h1, hv⟩
    rw [Vm.step_output c Vm.readingNotSupported Vm.writingNotSupported ()
      hm hop h1 hv]
    rfl
  · exact Vm.runAll_error Vm.readingNotSupported Vm.writingNotSupported
      fuel c ()
  · intro h
    simp [Vm.Computer.execute, h]
  · intro h
    simp [Vm.Computer.execute, h]

theorem vm_execute_stubbed_witness :
    ((Vm.Computer.new [3, 0, 99]).step Vm.readingNotSupported
        Vm.writingNotSupported () =
      (.error .ReadingNotSupported, Vm.Computer.new [3, 0, 99], ()))
    ∧ ((Vm.Computer.new [4, 0, 99]).step Vm.readingNotSupported
        Vm.writingNotSupported () =
      (.error .WritingNotSupported, Vm.Computer.new [4, 0, 99], ()))
    ∧ (Vm.Computer.new [3, 0, 99]).execute 1 =
        some (.error .ReadingNotSupported) := by
  have ha := vm_execute_stubbed 1 (Vm.Computer.new [3, 0, 99])
    (Vm.Computer.new [3, 0, 99]) 3 .ReadingNotSupported
  have hb := vm_execute_stubbed 1 (Vm.Computer.new [4, 0, 99])
    (Vm.Computer.new [4, 0, 99]) 4 .WritingNotSupported
  exact ⟨ha.1 ⟨.Position, rfl, rfl, rfl⟩,
    hb.2.1 ⟨.Position, 4, rfl, rfl, rfl, rfl⟩,
    ha.2.2.2.1 rfl⟩

/-- C5: a position-mode operand read resolves to
`memory[memory[address]]` and an immediate-mode read to
`memory[address]`; a position-mode write stores at the address
`memory[address]`, while a write through an immediate-mode operand always
fails with InvalidWriteMode and stores nothing. -/
theorem vm_operand_resolution (c : Vm.Computer) (a : Nat) (v : Vm.Value)
    (h : a < c.memory.length) :
    (∀ h2 : Vm.toUsize c.memory[a] < c.memory.length,
       c.read a .Position = .ok c.memory[Vm.toUsize c.memory[a]])
    ∧ c.read a .Immediate = .ok c.memory[a]
    ∧ c.write a .Position v =
        Vm.memWrite c.memory (Vm.toUsize c.memory[a]) v
    ∧ (∀ h2 : Vm.toUsize c.memory[a] < c.memory.length,
       c.write a .Position v = .ok (c.memory.set (Vm.toUsize c.memory[a]) v))
    ∧ (∀ b : Nat, c.write b .Immediate v =
        .error (.InvalidWriteMode .Immediate)) := by
  refine ⟨?_, ?_, ?_, ?_, ?_⟩
  · intro h2
    simp [Vm.Computer.read, Vm.memRead_of_lt h, Vm.memRead_of_lt h2,
      Bind.bind, Except.bind]
  · simp [Vm.Computer.read, Vm.memRead_of_lt h]
  · simp [Vm.Computer.write, Vm.memRead_of_lt h, Bind.bind, Except.bind]
  · intro h2
    simp [Vm.Computer.write, Vm.memRead_of_lt h, Vm.memWrite, h2,
      Bind.bind, Except.bind]
  · intro b
    simp [Vm.Computer.write]

theorem vm_operand_resolution_witness :
    (⟨[1, 9], 0⟩ : Vm.Computer).read 0 .Position = .ok 9
    ∧ (⟨[1, 9], 0⟩ : Vm.Computer).read 0 .Immediate = .ok 1
    ∧ (⟨[1, 9], 0⟩ : Vm.Computer).write 0 .Position 5 = .ok [1, 5]
    ∧ (⟨[1, 9], 0⟩ : Vm.Computer).write 0 .Immediate 5 =
        .error (.InvalidWriteMode .Immediate) := by
  have h := vm_operand_resolution ⟨[1, 9], 0⟩ 0 5 (by decide)
  exact ⟨h.1 (by decide), h.2.1, h.2.2.2.1 (by decide), h.2.2.2.2 0⟩

/-- C6: an Input step invokes the read channel exactly once and stores
the returned value through position mode; an Output step invokes the
write channel exactly once with the resolved operand value; and the
program that Inputs into cell 0 and Outputs that same cell, run with
input values [1], emits exactly the output sequence [1]. -/
theorem vm_io_contract (σ : Type) (c : Vm.Computer)
    (rc : σ → Except Vm.Error Vm.Value × σ)
    (wc : Vm.Value → σ → Except Vm.Error Unit × σ) (st : σ)
    (w v : Vm.Value) (m1 : Vm.Mode) :
    ((Vm.memRead c.memory c.ip = .ok w → w.tmod 100 = 3 →
      (Vm.popMode (w.tdiv 100)).1 = .ok .Position →
      c.step rc wc st =
        match rc st with
        | (.error e, st2) => (.error e, c, st2)
        | (.ok v2, st2) =>
          match c.write (c.ip + 1) .Position v2 with
          | .error e => (.error e, c, st2)
          | .ok mem => (.ok .Running, ⟨mem, c.ip + 2⟩, st2)))
    ∧ ((Vm.memRead c.memory c.ip = .ok w → w.tmod 100 = 4 →
      (Vm.popMode (w.tdiv 100)).1 = .ok m1 → c.read (c.ip + 1) m1 = .ok v →
      c.step rc wc st =
        match wc v st with
        | (.error e, st2) => (.error e, c, st2)
        | (.ok _, st2) => (.ok .Running, ⟨c.memory, c.ip + 2⟩, st2)))
    ∧ (Vm.Computer.new [3, 0, 4, 0, 99]).run Vm.listRead Vm.listWrite 3
        ([1], []) = some (.ok (⟨[1, 0, 4, 0, 99], 4⟩, ([], [1]))) :=
  ⟨fun hm hop h1 => Vm.step_input c rc wc st hm hop h1,
   fun hm hop h1 hv => Vm.step_output c rc wc st hm hop h1 hv,
   rfl⟩

theorem vm_io_contract_witness :
    ((Vm.Computer.new [3, 0, 99]).step Vm.listRead Vm.listWrite ([7], []) =
      (.ok .Running, ⟨[7, 0, 99], 2⟩, ([], [])))
    ∧ ((Vm.Computer.new [4, 2, 99]).step Vm.listRead Vm.listWrite ([], []) =
      (.ok .Running, ⟨[4, 2, 99], 2⟩, ([], [99]))) := by
  have ha := (vm_io_contract (List Vm.Value × List Vm.Value)
    (Vm.Computer.new [3, 0, 99]) Vm.listRead Vm.listWrite ([7], [])
    3 0 .Position).1 rfl rfl rfl
  have hb := (vm_io_contract (List Vm.Value × List Vm.Value)
    (Vm.Computer.new [4, 2, 99]) Vm.listRead Vm.listWrite ([], [])
    4 99 .Position).2.1 rfl rfl rfl rfl
  exact ⟨by rw [ha]; rfl, by rw [hb]; rfl⟩

/-- C7: on the initial memory image [1,0,0,0,99] `execute` returns 2, and
on [1,9,10,3,2,3,11,0,99,30,40,50] it returns 3500. -/
theorem vm_execute_examples :
    (Vm.Computer.new [1, 0, 0, 0, 99]).execute 2 = some (.ok 2)
    ∧ (Vm.Computer.new [1, 9, 10, 3, 2, 3, 11, 0, 99, 30, 40, 50]).execute 3 =
        some (.ok 3500) :=
  ⟨rfl, rfl⟩

/-- C8 counterexample: on the image [1,10,0] both variants fetch only the
instruction word 1 and both fail, but the minimal variant faults at the
destination fetch (SegFault 3) while the full variant faults first at the
operand dereference (SegFault 10): the errors are not the same. -/
theorem vm_variants_error_divergence :
    VmMin.execute [1, 10, 0] 1 = some (.error (.SegFault 3))
    ∧ (Vm.Computer.new [1, 10, 0]).executeWithMem 1 =
        some (.error (.SegFault 10))
    ∧ (VmMin.Error.SegFault 3).toVm ≠ Vm.Error.SegFault 10 :=
  ⟨rfl, rfl, by decide⟩

/-- Relating one Add or Multiply instruction of the two variants: the
minimal variant fetches the destination first, the full variant reads the
operands first, so both fail together (possibly with different fault
addresses) or produce the same written memory. -/
theorem addmul_rel (m : List Vm.Value) (ip : Nat)
    (f : Vm.Value → Vm.Value → Vm.Value) :
    (∃ e1 e2,
      (do
        let dest ← VmMin.memRead m (ip + 3)
        let x ← VmMin.read m (ip + 1)
        let y ← VmMin.read m (ip + 2)
        VmMin.memWrite m (Vm.toUsize dest) (f x y)) = .error e1 ∧
      (do
        let x ← Vm.Computer.read ⟨m, ip⟩ (ip + 1) .Position
        let y ← Vm.Computer.read ⟨m, ip⟩ (ip + 2) .Position
        Vm.Computer.write ⟨m, ip⟩ (ip + 3) .Position (f x y)) = .error e2)
    ∨ (∃ mem,
      (do
        let dest ← VmMin.memRead m (ip + 3)
        let x ← VmMin.read m (ip + 1)
        let y ← VmMin.read m (ip + 2)
        VmMin.memWrite m (Vm.toUsize dest) (f x y)) = .ok mem ∧
      (do
        let x ← Vm.Computer.read ⟨m, ip⟩ (ip + 1) .Position
        let y ← Vm.Computer.read ⟨m, ip⟩ (ip + 2) .Position
        Vm.Computer.write ⟨m, ip⟩ (ip + 3) .Position (f x y)) = .ok mem) := by
  simp only [VmMin.memRead, VmMin.read, VmMin.memWrite, Vm.Computer.read,
    Vm.Computer.write, Vm.memRead, Vm.memWrite, Bind.bind, Except.bind]
  rcases hD : m[ip + 3]? with _ | dest <;>
    rcases hA : m[ip + 1]? with _ | x <;>
    simp only [hD, hA]
  all_goals try exact Or.inl ⟨_, _, rfl, rfl⟩
  all_goals rcases hA2 : m[Vm.toUsize x]? with _ | x2 <;> simp only [hA2]
  all_goals try exact Or.inl ⟨_, _, rfl, rfl⟩
  all_goals rcases hB : m[ip + 2]? with _ | y <;> simp only [hB]
  all_goals try exact Or.inl ⟨_, _, rfl, rfl⟩
  all_goals rcases hB2 : m[Vm.toUsize y]? with _ | y2 <;> simp only [hB2]
  all_goals try exact Or.inl ⟨_, _, rfl, rfl⟩
  all_goals try split_ifs with hW
  all_goals try exact Or.inl ⟨_, _, rfl, rfl⟩
  all_goals exact Or.inr ⟨_, rfl, rfl⟩

namespace VmMin

/-- Unfolding of the minimal loop on a failing fetch. -/
theorem executeAux_fetch_error (fuel : Nat) (m : List Vm.Value) (ip : Nat)
    (h : m[ip]? = none) :
    executeAux (fuel + 1) m ip = some (.error (.SegFault ip)) := by
  conv_lhs => rw [executeAux]
  simp [memRead, h]

/-- Unfolding of the minimal loop on an Add word. -/
theorem executeAux_add (fuel : Nat) (m : List Vm.Value) (ip : Nat)
    (h : m[ip]? = some 1) :
    executeAux (fuel + 1) m ip =
      match (do
          let dest ← memRead m (ip + 3)
          let x ← read m (ip + 1)
          let y ← read m (ip + 2)
          memWrite m (Vm.toUsize dest) (x + y) :
            Except Error (List Vm.Value)) with
      | .error e => some (.error e)
      | .ok m2 => executeAux fuel m2 (ip + 4) := by
  conv_lhs => rw [executeAux]
  rw [show memRead m ip = .ok 1 from by simp [memRead, h]]
  rfl

/-- Unfolding of the minimal loop on a Multiply word. -/
theorem executeAux_mul (fuel : Nat) (m : List Vm.Value) (ip : Nat)
    (h : m[ip]? = some 2) :
    executeAux (fuel + 1) m ip =
      match (do
          let dest ← memRead m (ip + 3)
          let x ← read m (ip + 1)
          let y ← read m (ip + 2)
          memWrite m (Vm.toUsize dest) (x * y) :
            Except Error (List Vm.Value)) with
      | .error e => some (.error e)
      | .ok m2 => executeAux fuel m2 (ip + 4) := by
  conv_lhs => rw [executeAux]
  rw [show memRead m ip = .ok 2 from by simp [memRead, h]]
  rfl

/-- Unfolding of the minimal loop on a Halt word. -/
theorem executeAux_halt (fuel : Nat) (m : List Vm.Value) (ip : Nat)
    (h : m[ip]? = some 99) :
    executeAux (fuel + 1) m ip =
      match memRead m 0 with
      | .error e => some (.error e)
      | .ok v => some (.ok (v, m)) := by
  conv_lhs => rw [executeAux]
  rw [show memRead m ip = .ok 99 from by simp [memRead, h]]
  rfl

/-- Unfolding of the minimal loop on an invalid opcode word. -/
theorem executeAux_invalid (fuel : Nat) (m : List Vm.Value) (ip : Nat)
    {w : Vm.Value} (h : m[ip]? = some w)
    (h1 : w ≠ 1) (h2 : w ≠ 2) (h99 : w ≠ 99) :
    executeAux (fuel + 1) m ip = some (.error (.InvalidOpCode w)) := by
  conv_lhs => rw [executeAux]
  rw [show memRead m ip = .ok w from by simp [memRead, h]]
  simp [OpCode.tryFrom, h1, h2, h99]

end VmMin

/-- C8 (amended): for every memory image and starting pointer whose
minimal-variant run never decodes an invalid opcode (i.e. fetches only
the words 1, 2 and 99), the minimal and the full `execute` either both
run out of fuel, both succeed with the same value and the same final
memory, or both fail -- though, as the counterexample shows, not
necessarily with the same error. -/
theorem vm_minimal_refines_full (fuel : Nat) (m : List Vm.Value) (ip : Nat)
    (hno : ∀ v, VmMin.executeAux fuel m ip ≠
      some (.error (.InvalidOpCode v))) :
    (VmMin.executeAux fuel m ip = none ∧
      (⟨m, ip⟩ : Vm.Computer).executeWithMem fuel = none)
    ∨ (∃ v mem, VmMin.executeAux fuel m ip = some (.ok (v, mem)) ∧
      (⟨m, ip⟩ : Vm.Computer).executeWithMem fuel = some (.ok (v, mem)))
    ∨ (∃ e1 e2, VmMin.executeAux fuel m ip = some (.error e1) ∧
      (⟨m, ip⟩ : Vm.Computer).executeWithMem fuel = some (.error e2)) := by
  induction fuel generalizing m ip with
  | zero => exact Or.inl ⟨rfl, rfl⟩
  | succ fuel ih =>
    rcases hw : m[ip]? with _ | w
    · refine Or.inr (Or.inr ⟨.SegFault ip, .SegFault ip, ?_, ?_⟩)
      · exact VmMin.executeAux_fetch_error fuel m ip hw
      · exact Vm.executeWithMem_step_error _ fuel
          (Vm.step_fetch_error _ _ _ () (by simp [Vm.memRead, hw]))
    · by_cases h1 : w = 1
      · subst h1
        have hmin := VmMin.executeAux_add fuel m ip hw
        have hstep := Vm.step_add (⟨m, ip⟩ : Vm.Computer)
          Vm.readingNotSupported Vm.writingNotSupported ()
          (by simp [Vm.memRead, hw])
        rcases addmul_rel m ip (fun x y => x + y) with
          ⟨e1, e2, hE1, hE2⟩ | ⟨mem, hE1, hE2⟩
        · refine Or.inr (Or.inr ⟨e1, e2, ?_, ?_⟩)
          · rw [hmin, hE1]
          · exact Vm.executeWithMem_step_error _ fuel (by rw [hstep, hE2])
        · have hminEq : VmMin.executeAux (fuel + 1) m ip =
              VmMin.executeAux fuel mem (ip + 4) := by rw [hmin, hE1]
          have hfullEq : (⟨m, ip⟩ : Vm.Computer).executeWithMem (fuel + 1) =
              (⟨mem, ip + 4⟩ : Vm.Computer).executeWithMem fuel :=
            Vm.executeWithMem_step_running _ fuel (by rw [hstep, hE2])
          rw [hminEq, hfullEq]
          exact ih mem (ip + 4) (fun v hv => hno v (by rw [hminEq]; exact hv))
      · by_cases h2 : w = 2
        · subst h2
          have hmin := VmMin.executeAux_mul fuel m ip hw
          have hstep := Vm.step_mul (⟨m, ip⟩ : Vm.Computer)
            Vm.readingNotSupported Vm.writingNotSupported ()
            (by simp [Vm.memRead, hw])
          rcases addmul_rel m ip (fun x y => x * y) with
            ⟨e1, e2, hE1, hE2⟩ | ⟨mem, hE1, hE2⟩
          · refine Or.inr (Or.inr ⟨e1, e2, ?_, ?_⟩)
            · rw [hmin, hE1]
            · exact Vm.executeWithMem_step_error _ fuel (by rw [hstep, hE2])
          · have hminEq : VmMin.executeAux (fuel + 1) m ip =
                VmMin.executeAux fuel mem (ip + 4) := by rw [hmin, hE1]
            have hfullEq : (⟨m, ip⟩ : Vm.Computer).executeWithMem (fuel + 1) =
                (⟨mem, ip + 4⟩ : Vm.Computer).executeWithMem fuel :=
              Vm.executeWithMem_step_running _ fuel (by rw [hstep, hE2])
            rw [hminEq, hfullEq]
            exact ih mem (ip + 4) (fun v hv => hno v (by rw [hminEq]; exact hv))
        · by_cases h99 : w = 99
          · subst h99
            have hmin := VmMin.executeAux_halt fuel m ip hw
            have hfull := Vm.executeWithMem_step_halted (⟨m, ip⟩ : Vm.Computer)
              fuel (Vm.step_halt _ _ _ () (by simp [Vm.memRead, hw]))
            rcases h0 : m[0]? with _ | v0
            · refine Or.inr (Or.inr ⟨.SegFault 0, .SegFault 0, ?_, ?_⟩)
              · rw [hmin]; simp [VmMin.memRead, h0]
              · rw [hfull]; simp [Vm.memRead, h0]
            · refine Or.inr (Or.inl ⟨v0, m, ?_, ?_⟩)
              · rw [hmin]; simp [VmMin.memRead, h0]
              · rw [hfull]; simp [Vm.memRead, h0]
          · exact absurd (VmMin.executeAux_invalid fuel m ip hw h1 h2 h99)
              (hno w)

theorem vm_minimal_refines_full_witness :
    (VmMin.executeAux 2 [1, 0, 0, 0, 99] 0 = none ∧
      (⟨[1, 0, 0, 0, 99], 0⟩ : Vm.Computer).executeWithMem 2 = none)
    ∨ (∃ v mem,
      VmMin.executeAux 2 [1, 0, 0, 0, 99] 0 = some (.ok (v, mem)) ∧
      (⟨[1, 0, 0, 0, 99], 0⟩ : Vm.Computer).executeWithMem 2 =
        some (.ok (v, mem)))
    ∨ (∃ e1 e2,
      VmMin.executeAux 2 [1, 0, 0, 0, 99] 0 = some (.error e1) ∧
      (⟨[1, 0, 0, 0, 99], 0⟩ : Vm.Computer).executeWithMem 2 =
        some (.error e2)) :=
  vm_minimal_refines_full 2 [1, 0, 0, 0, 99] 0 (fun v h => by
    rw [show VmMin.executeAux 2 [1, 0, 0, 0, 99] 0 =
      some (.ok (2, [2, 0, 0, 0, 99])) from rfl] at h
    simp at h)

/-- C9: a failing step is atomic with respect to the machine state: if
`step` returns an error, the memory and the instruction pointer are
exactly as they were before the step (only the caller-supplied channels
may have been invoked). -/
theorem vm_step_error_atomic (σ : Type) (c : Vm.Computer)
    (readCh : σ → Except Vm.Error Vm.Value × σ)
    (writeCh : Vm.Value → σ → Except Vm.Error Unit × σ) (st : σ)
    (e : Vm.Error) (c2 : Vm.Computer) (st2 : σ)
    (h : c.step readCh writeCh st = (.error e, c2, st2)) :
    c2.memory = c.memory ∧ c2.ip = c.ip := by
  suffices hc : c2 = c by rw [hc]; exact ⟨rfl, rfl⟩
  unfold Vm.Computer.step at h
  dsimp only at h
  repeat' split at h
  all_goals try (cases h; rfl)
  all_goals simp only [Prod.mk.injEq] at h
  all_goals exact absurd h.1 (by simp)

theorem vm_step_error_atomic_witness :
    (⟨[], 0⟩ : Vm.Computer).memory = (⟨[], 0⟩ : Vm.Computer).memory ∧
    (⟨[], 0⟩ : Vm.Computer).ip = (⟨[], 0⟩ : Vm.Computer).ip :=
  vm_step_error_atomic Unit ⟨[], 0⟩ Vm.readingNotSupported
    Vm.writingNotSupported () (.SegFault 0) ⟨[], 0⟩ () rfl

/-- C10: negative address values are reinterpreted, not rejected: the
`as usize` cast wraps a negative value to a huge address modulo 2^64, a
taken jump to a negative resolved target succeeds (the new ip is the
wrapped address) and the failure surfaces only at the next fetch as
SegFault carrying the wrapped address; likewise a position-mode read or
write through a negative pointer fails with SegFault carrying the
wrapped, never the original negative, value. -/
theorem vm_negative_address_wrap (c : Vm.Computer) (σ : Type)
    (rc : σ → Except Vm.Error Vm.Value × σ)
    (wc : Vm.Value → σ → Except Vm.Error Unit × σ) (st : σ)
    (a : Nat) (v w condv tv : Vm.Value) (m1 m2 : Vm.Mode) :
    (v < 0 → -(2 ^ 63) ≤ v →
      Vm.toUsize v = (v + 2 ^ 64).toNat ∧ 2 ^ 63 ≤ Vm.toUsize v)
    ∧ (Vm.memRead c.memory c.ip = .ok w → w.tmod 100 = 5 →
      (Vm.popMode (w.tdiv 100)).1 = .ok m1 →
      (Vm.popMode (Vm.popMode (w.tdiv 100)).2).1 = .ok m2 →
      c.read (c.ip + 1) m1 = .ok condv → condv ≠ 0 →
      c.read (c.ip + 2) m2 = .ok tv → tv < 0 →
      c.step rc wc st = (.ok .Running, ⟨c.memory, Vm.toUsize tv⟩, st))
    ∧ (c.memory.length ≤ c.ip →
      c.step rc wc st = (.error (.SegFault c.ip), c, st))
    ∧ (Vm.memRead c.memory a = .ok v → v < 0 → -(2 ^ 63) ≤ v →
      c.memory.length ≤ 2 ^ 63 →
      c.read a .Position = .error (.SegFault (Vm.toUsize v)))
    ∧ (Vm.memRead c.memory a = .ok v → v < 0 → -(2 ^ 63) ≤ v →
      c.memory.length ≤ 2 ^ 63 → ∀ x,
      c.write a .Position x = .error (.SegFault (Vm.toUsize v))) := by
  have key : ∀ x : Int, x < 0 → -9223372036854775808 ≤ x →
      (x % 18446744073709551616).toNat = (x + 18446744073709551616).toNat ∧
      9223372036854775808 ≤ (x % 18446744073709551616).toNat := by
    intro x hx1 hx2
    omega
  have hwrap : v < 0 → -(2 ^ 63) ≤ v →
      Vm.toUsize v = (v + 2 ^ 64).toNat ∧ 2 ^ 63 ≤ Vm.toUsize v := by
    intro hneg hlow
    simp only [Vm.toUsize, Vm.usizeSize]
    have h1 : ((2 ^ 64 : Nat) : Int) = 18446744073709551616 := by norm_num
    have h2 : (2 ^ 64 : Int) = 18446744073709551616 := by norm_num
    have h3 : (2 ^ 63 : Nat) = 9223372036854775808 := by norm_num
    have h4 : (2 ^ 63 : Int) = 9223372036854775808 := by norm_num
    rw [h1, h2, h3]
    rw [h4] at hlow
    exact key v hneg hlow
  refine ⟨hwrap, ?_, ?_, ?_, ?_⟩
  · intro hm hop h1 h2 hc hcnz ht htneg
    rw [Vm.step_jump_true c rc wc st hm hop h1 h2 hc ht, if_neg hcnz]
  · intro hip
    simp [Vm.Computer.step, Vm.memRead_of_ge hip]
  · intro hm hneg hlow hlen
    have hge : c.memory.length ≤ Vm.toUsize v :=
      le_trans hlen (hwrap hneg hlow).2
    simp [Vm.Computer.read, hm, Vm.memRead_of_ge hge, Bind.bind, Except.bind]
  · intro hm hneg hlow hlen x
    have hge : c.memory.length ≤ Vm.toUsize v :=
      le_trans hlen (hwrap hneg hlow).2
    simp [Vm.Computer.write, hm, Vm.memWrite, Nat.not_lt.mpr hge,
      Bind.bind, Except.bind]

theorem vm_negative_address_wrap_witness :
    (Vm.toUsize (-6) = ((-6 : Int) + 2 ^ 64).toNat ∧ 2 ^ 63 ≤ Vm.toUsize (-6))
    ∧ (Vm.Computer.new [1105, 1, -6]).step Vm.readingNotSupported
        Vm.writingNotSupported () =
        (.ok .Running, ⟨[1105, 1, -6], Vm.toUsize (-6)⟩, ())
    ∧ (⟨[1105, 1, -6], Vm.toUsize (-6)⟩ : Vm.Computer).step
        Vm.readingNotSupported Vm.writingNotSupported () =
        (.error (.SegFault (Vm.toUsize (-6))),
          ⟨[1105, 1, -6], Vm.toUsize (-6)⟩, ())
    ∧ (⟨[-5, 0], 0⟩ : Vm.Computer).read 0 .Position =
        .error (.SegFault (Vm.toUsize (-5)))
    ∧ (⟨[-5, 0], 0⟩ : Vm.Computer).write 0 .Position 1 =
        .error (.SegFault (Vm.toUsize (-5))) := by
  have ha := vm_negative_address_wrap (Vm.Computer.new [1105, 1, -6]) Unit
    Vm.readingNotSupported Vm.writingNotSupported () 0 (-6) 1105 1 (-6)
    .Immediate .Immediate
  have hb := vm_negative_address_wrap
    (⟨[1105, 1, -6], Vm.toUsize (-6)⟩ : Vm.Computer) Unit
    Vm.readingNotSupported Vm.writingNotSupported () 0 (-6) 1105 1 (-6)
    .Immediate .Immediate
  have hd := vm_negative_address_wrap (⟨[-5, 0], 0⟩ : Vm.Computer) Unit
    Vm.readingNotSupported Vm.writingNotSupported () 0 (-5) 1105 1 (-6)
    .Immediate .Immediate
  refine ⟨ha.1 (by decide) (by decide), ?_, ?_, ?_, ?_⟩
  · exact ha.2.1 rfl rfl rfl rfl rfl (by decide) rfl (by decide)
  · exact hb.2.2.1 (by decide)
  · exact hd.2.2.2.1 rfl (by decide) (by decide) (by decide)
  · exact hd.2.2.2.2 rfl (by decide) (by decide) (by decide) 1
